import Mathlib

/-!
Verification of the yalo-go client library (github.com/Idmission-LLC/yalo-go).

The Go sources (yalo.go, yalo_test.go) are shallowly embedded below:

* `Json` models a parsed JSON document; `parseJson` models the validity
  check `json.Unmarshal(body, &testJSON)` performed by `SendRequest`, and
  `printJson` models `json.Marshal` output for the request payload.
* The decoding of a `NotificationResponse` (`ParseResponse`) is modelled by
  `unmarshalNR`, following Go `encoding/json` semantics for the concrete
  struct: unknown keys are ignored, keys match field tags exactly or
  case-insensitively, a later duplicate key overwrites an earlier one,
  `null` is a no-op on scalar fields and resets pointer/slice fields,
  and a type mismatch is an error.
* The client operations `SendRequest` / `SendNotification` are embedded as
  pure functions over an explicit call-effect record (`CallResult`,
  `NotifyResult`) that tracks rate-limiter tickets consumed, underlying
  transport attempts, log lines, and the returned value/error pair.
-/

set_option autoImplicit false

namespace Yalo

/-- A parsed JSON document.  Object fields keep their textual order, and a
number keeps its source lexeme (no numeric field of the library's structs is
ever decoded, so the lexeme is never interpreted). -/
inductive Json where
  | null
  | bool (b : Bool)
  | num (lexeme : String)
  | str (s : String)
  | arr (elems : List Json)
  | obj (fields : List (String × Json))

/-- Character-wise lowercasing, modelling the case folding of Go
`encoding/json` field matching for the ASCII keys in use. -/
def lowerAscii (s : String) : String :=
  String.mk (s.data.map Char.toLower)

/-- Go `encoding/json` matches an object key against a struct field tag
either exactly or case-insensitively. -/
def matchesKey (k tag : String) : Bool :=
  k == tag || lowerAscii k == tag

/-- The value that Go decoding leaves in a struct field keyed by `tag`:
object fields are processed in order and a later occurrence overwrites an
earlier one, so the last matching key is the relevant one. -/
def lookupLastKey (tag : String) : List (String × Json) → Option Json
  | [] => none
  | (k, v) :: rest =>
    match lookupLastKey tag rest with
    | some v' => some v'
    | none => if matchesKey k tag then some v else none

/-! JSON parsing, modelling the validity check of `json.Unmarshal` into an
empty interface: `parseJson s = none` exactly when the body is not valid
JSON. -/

def isWsChar (c : Char) : Bool :=
  c = ' ' || c = '\t' || c = '\n' || c = '\r'

def skipWs : List Char → List Char
  | [] => []
  | c :: cs => if isWsChar c then skipWs cs else c :: cs

def isHexDig (c : Char) : Bool :=
  c.isDigit || ('a' ≤ c && c ≤ 'f') || ('A' ≤ c && c ≤ 'F')

def hexVal (c : Char) : Nat :=
  if c.isDigit then c.toNat - 48
  else if 'a' ≤ c && c ≤ 'f' then c.toNat - 87
  else if 'A' ≤ c && c ≤ 'F' then c.toNat - 55
  else 0

/-- Parse the body of a JSON string literal (the opening quote already
consumed), returning its unescaped content and the remaining input. -/
def parseStringBody : List Char → Option (String × List Char)
  | [] => none
  | '\"' :: cs => some ("", cs)
  | '\\' :: e :: cs =>
    if e = 'u' then
      match cs with
      | h1 :: h2 :: h3 :: h4 :: cs' =>
        if isHexDig h1 && isHexDig h2 && isHexDig h3 && isHexDig h4 then
          match parseStringBody cs' with
          | some (rest, rem) =>
            some (String.singleton (Char.ofNat
              (((hexVal h1 * 16 + hexVal h2) * 16 + hexVal h3) * 16 + hexVal h4)) ++ rest, rem)
          | none => none
        else none
      | _ => none
    else
      let mapped : Option String :=
        if e = '\"' then some "\""
        else if e = '\\' then some "\\"
        else if e = '/' then some "/"
        else if e = 'n' then some "\n"
        else if e = 't' then some "\t"
        else if e = 'r' then some "\r"
        else if e = 'b' then some (String.singleton (Char.ofNat 8))
        else if e = 'f' then some (String.singleton (Char.ofNat 12))
        else none
      match mapped with
      | some piece =>
        match parseStringBody cs with
        | some (rest, rem) => some (piece ++ rest, rem)
        | none => none
      | none => none
  | c :: cs =>
    match parseStringBody cs with
    | some (rest, rem) => some (String.singleton c ++ rest, rem)
    | none => none

/-- Parse the lexeme of a JSON number (sign, integer part without leading
zeros, optional fraction and exponent). -/
def parseNumberLexeme (cs0 : List Char) : Option (String × List Char) :=
  let signed : String × List Char :=
    match cs0 with
    | '-' :: r => ("-", r)
    | _ => ("", cs0)
  let sgn := signed.1
  let cs1 := signed.2
  match cs1 with
  | [] => none
  | d :: rest1 =>
    if !d.isDigit then none
    else
      let intDone : String × List Char :=
        if d = '0' then ("0", rest1)
        else (String.mk (cs1.takeWhile Char.isDigit), cs1.dropWhile Char.isDigit)
      let ip := intDone.1
      let cs2 := intDone.2
      match cs2 with
      | '.' :: fr =>
        let fdigits := fr.takeWhile Char.isDigit
        let cs3 := fr.dropWhile Char.isDigit
        if fdigits.isEmpty then none
        else
          match cs3 with
          | 'e' :: ex => Option.map (fun p => (sgn ++ ip ++ "." ++ String.mk fdigits ++ "e" ++ p.1, p.2)) (parseExpTail ex)
          | 'E' :: ex => Option.map (fun p => (sgn ++ ip ++ "." ++ String.mk fdigits ++ "E" ++ p.1, p.2)) (parseExpTail ex)
          | _ => some (sgn ++ ip ++ "." ++ String.mk fdigits, cs3)
      | 'e' :: ex => Option.map (fun p => (sgn ++ ip ++ "e" ++ p.1, p.2)) (parseExpTail ex)
      | 'E' :: ex => Option.map (fun p => (sgn ++ ip ++ "E" ++ p.1, p.2)) (parseExpTail ex)
      | _ => some (sgn ++ ip, cs2)
where
  parseExpTail (cs : List Char) : Option (String × List Char) :=
    let signed : String × List Char :=
      match cs with
      | '+' :: r => ("+", r)
      | '-' :: r => ("-", r)
      | _ => ("", cs)
    let digs := signed.2.takeWhile Char.isDigit
    if digs.isEmpty then none
    else some (signed.1 ++ String.mk digs, signed.2.dropWhile Char.isDigit)

mutual

def parseValue : Nat → List Char → Option (Json × List Char)
  | 0, _ => none
  | fuel + 1, cs0 =>
    match skipWs cs0 with
    | 'n' :: 'u' :: 'l' :: 'l' :: rest => some (Json.null, rest)
    | 't' :: 'r' :: 'u' :: 'e' :: rest => some (Json.bool true, rest)
    | 'f' :: 'a' :: 'l' :: 's' :: 'e' :: rest => some (Json.bool false, rest)
    | '\"' :: rest => Option.map (fun p => (Json.str p.1, p.2)) (parseStringBody rest)
    | '[' :: rest =>
      (match skipWs rest with
       | ']' :: rem => some (Json.arr [], rem)
       | cs => Option.map (fun p => (Json.arr p.1, p.2)) (parseElems fuel cs))
    | '\x7b' :: rest =>
      (match skipWs rest with
       | '\x7d' :: rem => some (Json.obj [], rem)
       | cs => Option.map (fun p => (Json.obj p.1, p.2)) (parseMembers fuel cs))
    | cs => Option.map (fun p => (Json.num p.1, p.2)) (parseNumberLexeme cs)

def parseElems : Nat → List Char → Option (List Json × List Char)
  | 0, _ => none
  | fuel + 1, cs =>
    match parseValue fuel cs with
    | none => none
    | some (j, rest) =>
      match skipWs rest with
      | ',' :: rest' => Option.map (fun p => (j :: p.1, p.2)) (parseElems fuel rest')
      | ']' :: rest' => some ([j], rest')
      | _ => none

def parseMembers : Nat → List Char → Option (List (String × Json) × List Char)
  | 0, _ => none
  | fuel + 1, cs =>
    match skipWs cs with
    | '\"' :: rest =>
      (match parseStringBody rest with
       | none => none
       | some (k, rest1) =>
         match skipWs rest1 with
         | ':' :: rest2 =>
           (match parseValue fuel rest2 with
            | none => none
            | some (v, rest3) =>
              match skipWs rest3 with
              | ',' :: rest4 => Option.map (fun p => ((k, v) :: p.1, p.2)) (parseMembers fuel rest4)
              | '\x7d' :: rest4 => some ([(k, v)], rest4)
              | _ => none)
         | _ => none)
    | _ => none

end

/-- Model of the `json.Unmarshal(body, &testJSON)` validity check in
`SendRequest`: `none` when the body is not valid JSON. -/
def parseJson (s : String) : Option Json :=
  match parseValue (s.length + 1) s.toList with
  | some (j, rest) => if (skipWs rest).isEmpty then some j else none
  | none => none

/-! JSON printing, modelling `json.Marshal` for the request payload. -/

def lbrace : String := String.singleton (Char.ofNat 123)

def rbrace : String := String.singleton (Char.ofNat 125)

def escapeChar (c : Char) : String :=
  if c = '\"' then "\\\""
  else if c = '\\' then "\\\\"
  else if c = '\n' then "\\n"
  else if c = '\t' then "\\t"
  else if c = '\r' then "\\r"
  else String.singleton c

def escapeString (s : String) : String :=
  String.join (s.toList.map escapeChar)

mutual

def printJson : Json → String
  | Json.null => "null"
  | Json.bool true => "true"
  | Json.bool false => "false"
  | Json.num l => l
  | Json.str s => "\"" ++ escapeString s ++ "\""
  | Json.arr es => "[" ++ printJsonList es ++ "]"
  | Json.obj fs => lbrace ++ printJsonFields fs ++ rbrace

def printJsonList : List Json → String
  | [] => ""
  | [j] => printJson j
  | j :: rest => printJson j ++ "," ++ printJsonList rest

def printJsonFields : List (String × Json) → String
  | [] => ""
  | [(k, v)] => "\"" ++ escapeString k ++ "\":" ++ printJson v
  | (k, v) :: rest => "\"" ++ escapeString k ++ "\":" ++ printJson v ++ "," ++ printJsonFields rest

end

namespace Resp

/-- Modelled from the spec: one entry of the failure `reason.details`
sequence (`details: sequence of (phone, type, parameter, description)`).
The struct is referenced by `yalo_test.go` (fields `Phone`, `Type`,
`Parameter`, `Description`) but its declaration is missing from
`src/yalo.go`. -/
structure NotificationDetail where
  phone : String
  type : String
  parameter : String
  description : String
  deriving Repr, DecidableEq

/-- Modelled from the spec: the structured failure reason
(`reason: (description, error_code, details)`).  Referenced by
`yalo_test.go` (fields `Description`, `Error`, `Details`) but its
declaration is missing from `src/yalo.go`. -/
structure NotificationReason where
  description : String
  error : String
  details : List NotificationDetail
  deriving Repr, DecidableEq

/-- The response payload decoded by `ParseResponse`.  Fields `success`,
`id`, `message_ids` are declared in `src/yalo.go` (`NotificationResponse`);
the optional `reason` field is modelled from the spec (failure shape
`success:false` with `reason`), being referenced by `yalo_test.go` but
missing from the `src/yalo.go` declaration. -/
structure NotificationResponse where
  success : Bool
  id : String
  message_ids : List String
  reason : Option NotificationReason
  deriving Repr, DecidableEq

def zeroDetail : NotificationDetail := ⟨"", "", "", ""⟩

def zeroReason : NotificationReason := ⟨"", "", []⟩

def zeroNR : NotificationResponse := ⟨false, "", [], none⟩

end Resp

/-! Decoding a `NotificationResponse` from a parsed JSON document, following
Go `encoding/json` semantics: object fields are processed in order (a later
duplicate key overwrites), keys not matching any field tag are ignored,
`null` leaves a scalar field untouched and resets a slice/pointer field to
nil, and a type mismatch is an error. -/

/-- Decode one element of a JSON string array (`[]string`): a JSON `null`
element leaves the freshly allocated zero value `""`. -/
def decodeStringItem : Json → Except String String
  | Json.str s => Except.ok s
  | Json.null => Except.ok ""
  | _ => Except.error "json: cannot unmarshal value into Go value of type string"

def decodeStringItems : List Json → Except String (List String)
  | [] => Except.ok []
  | j :: rest =>
    match decodeStringItem j with
    | Except.error e => Except.error e
    | Except.ok s =>
      match decodeStringItems rest with
      | Except.error e => Except.error e
      | Except.ok l => Except.ok (s :: l)

/-- Apply one object field to a partially decoded `NotificationDetail`. -/
def applyDetailField (d : Resp.NotificationDetail) (k : String) (v : Json) :
    Except String Resp.NotificationDetail :=
  if matchesKey k "phone" then
    match v with
    | Json.null => Except.ok d
    | Json.str s => Except.ok { d with phone := s }
    | _ => Except.error "json: cannot unmarshal value into field phone of type string"
  else if matchesKey k "type" then
    match v with
    | Json.null => Except.ok d
    | Json.str s => Except.ok { d with type := s }
    | _ => Except.error "json: cannot unmarshal value into field type of type string"
  else if matchesKey k "parameter" then
    match v with
    | Json.null => Except.ok d
    | Json.str s => Except.ok { d with parameter := s }
    | _ => Except.error "json: cannot unmarshal value into field parameter of type string"
  else if matchesKey k "description" then
    match v with
    | Json.null => Except.ok d
    | Json.str s => Except.ok { d with description := s }
    | _ => Except.error "json: cannot unmarshal value into field description of type string"
  else Except.ok d

def decodeDetailFields : List (String × Json) → Resp.NotificationDetail →
    Except String Resp.NotificationDetail
  | [], d => Except.ok d
  | (k, v) :: rest, d =>
    match applyDetailField d k v with
    | Except.error e => Except.error e
    | Except.ok d' => decodeDetailFields rest d'

/-- Decode one element of the `details` array (`[]Detail`): a `null`
element leaves the zero value. -/
def decodeDetailItem : Json → Except String Resp.NotificationDetail
  | Json.obj fs => decodeDetailFields fs Resp.zeroDetail
  | Json.null => Except.ok Resp.zeroDetail
  | _ => Except.error "json: cannot unmarshal value into Go value of type Detail"

def decodeDetails : List Json → Except String (List Resp.NotificationDetail)
  | [] => Except.ok []
  | j :: rest =>
    match decodeDetailItem j with
    | Except.error e => Except.error e
    | Except.ok d =>
      match decodeDetails rest with
      | Except.error e => Except.error e
      | Except.ok l => Except.ok (d :: l)

/-- Apply one object field to a partially decoded `NotificationReason`. -/
def applyReasonField (r : Resp.NotificationReason) (k : String) (v : Json) :
    Except String Resp.NotificationReason :=
  if matchesKey k "description" then
    match v with
    | Json.null => Except.ok r
    | Json.str s => Except.ok { r with description := s }
    | _ => Except.error "json: cannot unmarshal value into field description of type string"
  else if matchesKey k "error" then
    match v with
    | Json.null => Except.ok r
    | Json.str s => Except.ok { r with error := s }
    | _ => Except.error "json: cannot unmarshal value into field error of type string"
  else if matchesKey k "details" then
    match v with
    | Json.null => Except.ok { r with details := [] }
    | Json.arr xs =>
      (match decodeDetails xs with
       | Except.error e => Except.error e
       | Except.ok l => Except.ok { r with details := l })
    | _ => Except.error "json: cannot unmarshal value into field details of type slice"
  else Except.ok r

def decodeReasonFields : List (String × Json) → Resp.NotificationReason →
    Except String Resp.NotificationReason
  | [], r => Except.ok r
  | (k, v) :: rest, r =>
    match applyReasonField r k v with
    | Except.error e => Except.error e
    | Except.ok r' => decodeReasonFields rest r'

/-- Apply one object field to a partially decoded `NotificationResponse`.
The `reason` field is a pointer: `null` resets it to nil, and an object is
decoded into the existing pointee (or a fresh zero value when nil). -/
def applyNRField (r : Resp.NotificationResponse) (k : String) (v : Json) :
    Except String Resp.NotificationResponse :=
  if matchesKey k "success" then
    match v with
    | Json.null => Except.ok r
    | Json.bool b => Except.ok { r with success := b }
    | _ => Except.error "json: cannot unmarshal value into field success of type bool"
  else if matchesKey k "id" then
    match v with
    | Json.null => Except.ok r
    | Json.str s => Except.ok { r with id := s }
    | _ => Except.error "json: cannot unmarshal value into field id of type string"
  else if matchesKey k "message_ids" then
    match v with
    | Json.null => Except.ok { r with message_ids := [] }
    | Json.arr xs =>
      (match decodeStringItems xs with
       | Except.error e => Except.error e
       | Except.ok l => Except.ok { r with message_ids := l })
    | _ => Except.error "json: cannot unmarshal value into field message_ids of type slice"
  else if matchesKey k "reason" then
    match v with
    | Json.null => Except.ok { r with reason := none }
    | Json.obj fs =>
      (match decodeReasonFields fs (r.reason.getD Resp.zeroReason) with
       | Except.error e => Except.error e
       | Except.ok x => Except.ok { r with reason := some x })
    | _ => Except.error "json: cannot unmarshal value into field reason of type Reason"
  else Except.ok r

def decodeNRFields : List (String × Json) → Resp.NotificationResponse →
    Except String Resp.NotificationResponse
  | [], r => Except.ok r
  | (k, v) :: rest, r =>
    match applyNRField r k v with
    | Except.error e => Except.error e
    | Except.ok r' => decodeNRFields rest r'

/-- Model of `json.Unmarshal` into a `NotificationResponse` value: a JSON
object decodes field by field over the zero value, a top-level `null` is a
no-op, and any other document is a type error. -/
def unmarshalNR : Json → Except String Resp.NotificationResponse
  | Json.obj fs => decodeNRFields fs Resp.zeroNR
  | Json.null => Except.ok Resp.zeroNR
  | _ => Except.error "json: cannot unmarshal value into Go value of type NotificationResponse"

/-- The `Response` struct returned by `SendRequest` (`src/yalo.go`). -/
structure Response where
  jsonData : String
  statusCode : Nat
  headers : List (String × String)
  deriving Repr, DecidableEq

/-- Model of `Response.ParseResponse` specialised to the
`NotificationResponse` target used by `SendNotification` and the tests:
`json.Unmarshal([]byte(r.JSONData), v)`. -/
def Response.parseNR (r : Response) : Except String Resp.NotificationResponse :=
  match parseJson r.jsonData with
  | none => Except.error "unexpected end of JSON input or invalid character"
  | some j => unmarshalNR j

/-! The client and its request pipeline (`src/yalo.go`).  The
`retryablehttp.Client` field is represented by its `RetryMax`-derived
attempt budget, and the rate-limiter channel by the count of tickets a call
receives from it. -/

/-- The `Client` struct of `src/yalo.go`.  `maxAttempts` stands for the
configured `RetryableClient` (its retry budget); the `rateLimiter` channel
is modelled by the ticket count recorded in a call's result. -/
structure Client where
  baseURL : String
  accountID : String
  botID : String
  token : String
  debug : Bool
  maxAttempts : Nat
  deriving Repr, DecidableEq

def ClientOption : Type := Client → Client

def WithBaseURL (u : String) : ClientOption := fun c => { c with baseURL := u }

def WithAccount (accountID botID : String) : ClientOption :=
  fun c => { c with accountID := accountID, botID := botID }

def WithToken (t : String) : ClientOption := fun c => { c with token := t }

def WithDebug (d : Bool) : ClientOption := fun c => { c with debug := d }

/-- Modelled from the spec: the default retry budget.  `NewClient` sets
`RetryMax = 3` on the injected go-retryablehttp client, whose loop is not
part of this repository; the spec fixes the policy as "up to 3 attempts
(configurable)". -/
def defaultMaxAttempts : Nat := 3

/-- The defaults `NewClient` starts from before applying options. -/
def defaultClient : Client :=
  ⟨"https://api-global.yalochat.com", "", "", "", false, defaultMaxAttempts⟩

/-- `NewClient`: apply the options in order over the default client. -/
def newClient (opts : List ClientOption) : Client :=
  opts.foldl (fun c o => o c) defaultClient

/-- A transport-level failure of one HTTP attempt. -/
inductive TransportError where
  | canceled
  | netError (msg : String)
  deriving Repr, DecidableEq

/-- The raw result of one underlying HTTP attempt. -/
structure HttpResp where
  statusCode : Nat
  body : String
  headers : List (String × String)
  deriving Repr, DecidableEq

/-- The underlying network, indexed by attempt number, so that transient
failures can be expressed. -/
def Transport : Type := Nat → Except TransportError HttpResp

/-- The cancellation state of the caller-supplied `context.Context`. -/
structure Ctx where
  cancelled : Bool
  deriving Repr, DecidableEq

/-- Modelled from the spec: the retry classification of go-retryablehttp
(not part of this repository): an attempt is retried when it fails at
transport level or returns a server-classified-retryable HTTP status
(at least 500, or 429). -/
def isRetryableResult : Except TransportError HttpResp → Bool
  | Except.error _ => true
  | Except.ok r => 500 ≤ r.statusCode || r.statusCode == 429

/-- Modelled from the spec: the retry loop of go-retryablehttp (not part of
this repository): attempts run in order, a retryable failure is retried
while budget remains, and exhausting the budget surfaces the last attempt's
result.  Returns the number of attempts performed with the final result.
`i` is the index of the next attempt, the second argument the remaining
attempt budget. -/
def retryLoop (t : Transport) : Nat → Nat → Nat × Except TransportError HttpResp
  | i, 0 => (i, Except.error (TransportError.netError "no attempt budget"))
  | i, 1 => (i + 1, t i)
  | i, rem + 2 =>
    let r := t i
    if isRetryableResult r then retryLoop t (i + 1) (rem + 1) else (i + 1, r)

/-- Modelled from the spec: `RetryableClient.Do` — the in-flight network
operation is aborted with a cancellation error when the context is
cancelled, and otherwise runs the retry loop with the client's attempt
budget.  Returns the number of underlying attempts with the result. -/
def clientDo (c : Client) (ctx : Ctx) (t : Transport) :
    Nat × Except TransportError HttpResp :=
  if ctx.cancelled then (0, Except.error TransportError.canceled)
  else retryLoop t 0 c.maxAttempts

/-- The error outcomes of `SendRequest` / `SendNotification`. -/
inductive YaloError where
  | configError
  | sendError (e : TransportError)
  | nonJSONResponse (status : Nat) (body : String)
  | parseError (msg : String)
  deriving Repr, DecidableEq

/-- Model of the Go string slice `s[:10]` on the token (`c.Token[:10]` in
`SendRequest`): `none` models the runtime panic `slice bounds out of range`
raised when the token has fewer than 10 characters. -/
def slice10 (s : String) : Option String :=
  if 10 ≤ s.length then some (s.take 10) else none

def reqUrlLog (u : String) : String := "[DEBUG] Request URL: " ++ u

def reqBodyLog (b : String) : String := "[DEBUG] Request Body: " ++ b

def authTokenLog (t10 : String) : String :=
  "[DEBUG] Authorization: Bearer " ++ t10 ++ "..."

def respStatusLog (s : Nat) : String := "[DEBUG] Response Status: " ++ toString s

def respBodyLog (b : String) : String := "[DEBUG] Response Body: " ++ b

/-- The debug/auth step of `SendRequest` (lines 120-126): when a token is
configured, debug mode logs the first 10 characters of it; `none` models
the panic of `c.Token[:10]` on a token shorter than 10 characters. -/
def authLogsOf (c : Client) : Option (List String) :=
  if c.token = "" then some []
  else if c.debug then Option.map (fun t10 => [authTokenLog t10]) (slice10 c.token)
  else some []

/-- Whether a `SendRequest` call panics on the debug token log: debug mode,
a non-empty token, and fewer than 10 characters in it. -/
def tokenPanics (c : Client) : Bool :=
  !(c.token == "") && c.debug && (slice10 c.token).isNone

/-- The observable outcome of one `SendRequest` call: the post-call client
configuration, the number of rate-limiter tickets received, the number of
underlying transport attempts, the debug log lines in order, and the Go
`(*Response, error)` pair. -/
structure CallResult where
  client : Client
  tickets : Nat
  attempts : Nat
  logs : List String
  resp : Option Response
  err : Option YaloError
  deriving Repr, DecidableEq

/-- Model of `Client.SendRequest` (`src/yalo.go` lines 98-165).  The
rate-limiter receive happens first, unconditionally (line 100: a bare
`<-c.rateLimiter` with no select on the context).  `none` models the
runtime panic of the debug token log for a non-empty token shorter than 10
characters. -/
def sendRequest (c : Client) (ctx : Ctx) (t : Transport)
    (endpoint jsonRequest : String) : Option CallResult :=
  let fullURL := c.baseURL ++ endpoint
  let logs0 := if c.debug then [reqUrlLog fullURL, reqBodyLog jsonRequest] else []
  match authLogsOf c with
  | none => none
  | some authLogs =>
    match clientDo c ctx t with
    | (attempts, Except.error te) =>
      some ⟨c, 1, attempts, logs0 ++ authLogs, none, some (YaloError.sendError te)⟩
    | (attempts, Except.ok resp) =>
      let respLogs :=
        if c.debug then [respStatusLog resp.statusCode, respBodyLog resp.body] else []
      some ⟨c, 1, attempts, logs0 ++ authLogs ++ respLogs,
        some ⟨resp.body, resp.statusCode, resp.headers⟩,
        if (parseJson resp.body).isNone then
          some (YaloError.nonJSONResponse resp.statusCode resp.body)
        else none⟩

def ticketsOf : Option CallResult → Nat
  | some r => r.tickets
  | none => 0

def attemptsOf : Option CallResult → Nat
  | some r => r.attempts
  | none => 0

def respOf : Option CallResult → Option Response
  | some r => r.resp
  | none => none

def errOf : Option CallResult → Option YaloError
  | some r => r.err
  | none => none

/-- The `User` record of a notification request (`src/yalo.go`): priority
(json tag `priority,omitempty`), phone, and the opaque `params` map,
represented by the JSON value it marshals to. -/
structure User where
  priority : String
  phone : String
  params : Json

def NotificationOption : Type := User → User

/-- `WithPriority` (`src/yalo.go` lines 197-201). -/
def WithPriority (p : String) : NotificationOption :=
  fun u => { u with priority := p }

/-- The recipient record `SendNotification` builds (`src/yalo.go` lines
218-226): default priority `"1"`, the given phone and params, then the
options applied in call order. -/
def builtUser (phone : String) (params : Json) (opts : List NotificationOption) : User :=
  opts.foldl (fun u o => o u) ⟨"1", phone, params⟩

structure NotificationRequest where
  type : String
  users : List User

/-- Model of `json.Marshal` on a `User`: fields in struct order, with
`priority` omitted when empty (`omitempty`). -/
def marshalUser (u : User) : Json :=
  Json.obj
    ((if u.priority = "" then [] else [("priority", Json.str u.priority)]) ++
      [("phone", Json.str u.phone), ("params", u.params)])

/-- Model of `json.Marshal` on a `NotificationRequest`. -/
def marshalNotificationRequest (r : NotificationRequest) : Json :=
  Json.obj [("type", Json.str r.type), ("users", Json.arr (r.users.map marshalUser))]

/-- The observable outcome of one `SendNotification` call. -/
structure NotifyResult where
  client : Client
  tickets : Nat
  attempts : Nat
  logs : List String
  result : Option Resp.NotificationResponse
  err : Option YaloError
  deriving Repr, DecidableEq

/-- Model of `Client.SendNotification` (`src/yalo.go` lines 211-244):
the account/bot precondition is checked before anything else, the endpoint
is built from the identifiers, the recipient record is built and the
options applied, the payload is marshalled (`SendRequestWithPayload`) and
sent, and a successful response is decoded.  `none` models a runtime
panic inside `SendRequest`. -/
def notificationEndpoint (c : Client) : String :=
  "/notifications/api/v1/accounts/" ++ c.accountID ++ "/bots/" ++ c.botID ++
    "/notifications"

/-- The serialized request body of `SendNotification`
(`SendRequestWithPayload`: `json.Marshal` of the payload). -/
def notificationBody (notificationType phone : String) (params : Json)
    (opts : List NotificationOption) : String :=
  printJson (marshalNotificationRequest
    ⟨notificationType, [builtUser phone params opts]⟩)

def sendNotification (c : Client) (ctx : Ctx) (t : Transport)
    (notificationType phone : String) (params : Json)
    (opts : List NotificationOption) : Option NotifyResult :=
  if c.accountID = "" ∨ c.botID = "" then
    some ⟨c, 0, 0, [], none, some YaloError.configError⟩
  else
    match sendRequest c ctx t (notificationEndpoint c)
        (notificationBody notificationType phone params opts) with
    | none => none
    | some cr =>
      match cr.err with
      | some e => some ⟨cr.client, cr.tickets, cr.attempts, cr.logs, none, some e⟩
      | none =>
        match cr.resp with
        | none => none
        | some r =>
          match Response.parseNR r with
          | Except.error m =>
            some ⟨cr.client, cr.tickets, cr.attempts, cr.logs, none,
              some (YaloError.parseError m)⟩
          | Except.ok nr =>
            some ⟨cr.client, cr.tickets, cr.attempts, cr.logs, some nr, none⟩

def nTicketsOf : Option NotifyResult → Nat
  | some r => r.tickets
  | none => 0

def nAttemptsOf : Option NotifyResult → Nat
  | some r => r.attempts
  | none => 0

def nResultOf : Option NotifyResult → Option Resp.NotificationResponse
  | some r => r.result
  | none => none

def nErrOf : Option NotifyResult → Option YaloError
  | some r => r.err
  | none => none

/-! Well-typedness of a JSON object with respect to the decoder: each field
that matches a known tag carries a value of the field's type (or `null`);
unmatched fields are arbitrary.  This is the exact condition under which
the lenient decoder accepts an object. -/

def wellTypedDetailField (k : String) (v : Json) : Bool :=
  if matchesKey k "phone" || matchesKey k "type" || matchesKey k "parameter"
      || matchesKey k "description" then
    match v with
    | Json.null => true
    | Json.str _ => true
    | _ => false
  else true

def wellTypedDetail : Json → Bool
  | Json.null => true
  | Json.obj fs => fs.all (fun kv => wellTypedDetailField kv.1 kv.2)
  | _ => false

def wellTypedReasonField (k : String) (v : Json) : Bool :=
  if matchesKey k "description" || matchesKey k "error" then
    match v with
    | Json.null => true
    | Json.str _ => true
    | _ => false
  else if matchesKey k "details" then
    match v with
    | Json.null => true
    | Json.arr xs => xs.all wellTypedDetail
    | _ => false
  else true

def wellTypedStringItem : Json → Bool
  | Json.null => true
  | Json.str _ => true
  | _ => false

def wellTypedNRField (k : String) (v : Json) : Bool :=
  if matchesKey k "success" then
    match v with
    | Json.null => true
    | Json.bool _ => true
    | _ => false
  else if matchesKey k "id" then
    match v with
    | Json.null => true
    | Json.str _ => true
    | _ => false
  else if matchesKey k "message_ids" then
    match v with
    | Json.null => true
    | Json.arr xs => xs.all wellTypedStringItem
    | _ => false
  else if matchesKey k "reason" then
    match v with
    | Json.null => true
    | Json.obj fs => fs.all (fun kv => wellTypedReasonField kv.1 kv.2)
    | _ => false
  else true

/-! Concrete inputs used by the witnesses and counterexamples. -/

/-- The reason description a decoded failure exposes, when present. -/
def reasonDescriptionOf (r : Resp.NotificationResponse) : Option String :=
  Option.map Resp.NotificationReason.description r.reason

/-- The reason error code a decoded failure exposes, when present. -/
def reasonErrorOf (r : Resp.NotificationResponse) : Option String :=
  Option.map Resp.NotificationReason.error r.reason

/-- Whether a decoded response carries a reason with a non-empty details
sequence. -/
def reasonHasDetails (r : Resp.NotificationResponse) : Bool :=
  match r.reason with
  | some x => !x.details.isEmpty
  | none => false

/-- The single detail entry of the test failure body
(`src/yalo_test.go`), keys in `json.Marshal` map order. -/
def exDetailsArr : List Json :=
  [Json.obj
    [("description", Json.str "text parameter is missing or empty"),
     ("parameter", Json.str "buttons.0.parameters.text"),
     ("phone", Json.str "+15868504413"),
     ("type", Json.str "invalid-button-param")]]

/-- The reason object of the test failure body. -/
def exReasonFields : List (String × Json) :=
  [("description", Json.str "validation encountered errors"),
   ("details", Json.arr exDetailsArr),
   ("error", Json.str "validation_error")]

/-- The failure body of `TestNotificationResponseParseFailure`
(`src/yalo_test.go`), with the object keys in the order `json.Marshal`
emits for a Go map (sorted), shortened free-text descriptions, and an
extra unknown key to exercise tolerance. -/
def exFailureFields : List (String × Json) :=
  [("id", Json.str ""),
   ("message_ids", Json.null),
   ("reason", Json.obj exReasonFields),
   ("success", Json.bool false),
   ("unknown_extra", Json.num "7")]

/-- The decoded form of `exFailureFields`. -/
def exFailureDecoded : Resp.NotificationResponse :=
  ⟨false, "", [],
    some ⟨"validation encountered errors", "validation_error",
      [⟨"+15868504413", "invalid-button-param", "buttons.0.parameters.text",
        "text parameter is missing or empty"⟩]⟩⟩

/-- A client with account and bot identifiers set, no token, debug off. -/
def exClient : Client := ⟨"https://api-global.yalochat.com", "acc", "bot", "", false, 3⟩

/-- A client missing its account identifier. -/
def exClientNoAccount : Client := ⟨"https://api-global.yalochat.com", "", "bot", "", false, 3⟩

/-- A debug-enabled client whose non-empty token has fewer than 10
characters. -/
def exClientShortToken : Client := ⟨"https://api-global.yalochat.com", "acc", "bot", "abc", true, 3⟩

/-- A transport that always answers 404 with an HTML error page. -/
def exHtmlTransport : Transport :=
  fun _ => Except.ok ⟨404, "<html>bad gateway</html>", [("Content-Type", "text/html")]⟩

/-- A transport that fails at transport level on its first attempt and
succeeds with 200/JSON afterwards. -/
def exFlakyTransport : Transport :=
  fun i =>
    if i = 0 then Except.error (TransportError.netError "connection reset")
    else Except.ok ⟨200, "null", []⟩

/-- The 200/JSON response of `exFlakyTransport` after its transient
failure. -/
def exOkResp : HttpResp := ⟨200, "null", []⟩

/-! Helper lemmas about field-key matching. -/

theorem matchesKey_eq_or (k tag : String) (h : matchesKey k tag = true) :
    k = tag ∨ lowerAscii k = tag := by
  unfold matchesKey at h
  cases hb : (k == tag) with
  | true => exact Or.inl (by simpa using hb)
  | false =>
    rw [hb] at h
    simp only [Bool.false_or] at h
    exact Or.inr (by simpa using h)

theorem matchesKey_ne (k t1 t2 : String) (hne : t1 ≠ t2)
    (l1 : lowerAscii t1 = t1) (l2 : lowerAscii t2 = t2)
    (h : matchesKey k t1 = true) : matchesKey k t2 = false := by
  rcases matchesKey_eq_or k t1 h with h1 | h1
  · subst h1
    unfold matchesKey
    simp only [Bool.or_eq_false_iff, beq_eq_false_iff_ne, ne_eq]
    exact ⟨hne, by rw [l1]; exact hne⟩
  · unfold matchesKey
    simp only [Bool.or_eq_false_iff, beq_eq_false_iff_ne, ne_eq]
    constructor
    · intro e
      subst e
      exact hne (l2.symm.trans h1).symm
    · intro e
      exact hne (h1.symm.trans e)

/-! Frame and last-write lemmas for the `NotificationResponse` decoder:
the value of a struct field after decoding is determined by the last
object key matching its tag. -/

theorem applyNRField_frame_success (r r' : Resp.NotificationResponse) (k : String) (v : Json)
    (hk : matchesKey k "success" = false)
    (h : applyNRField r k v = Except.ok r') : r'.success = r.success := by
  unfold applyNRField at h
  repeat' split at h
  all_goals simp_all
  all_goals subst h
  all_goals rfl

theorem applyNRField_frame_reason (r r' : Resp.NotificationResponse) (k : String) (v : Json)
    (hk : matchesKey k "reason" = false)
    (h : applyNRField r k v = Except.ok r') : r'.reason = r.reason := by
  unfold applyNRField at h
  repeat' split at h
  all_goals simp_all
  all_goals subst h
  all_goals rfl

theorem decodeNRFields_frame_success (fs : List (String × Json))
    (r r' : Resp.NotificationResponse)
    (hl : lookupLastKey "success" fs = none)
    (h : decodeNRFields fs r = Except.ok r') : r'.success = r.success := by
  induction fs generalizing r with
  | nil =>
    simp only [decodeNRFields] at h
    cases h
    rfl
  | cons kv rest ih =>
    obtain ⟨k, v⟩ := kv
    unfold lookupLastKey at hl
    unfold decodeNRFields at h
    cases hr : lookupLastKey "success" rest with
    | some w => rw [hr] at hl; cases hl
    | none =>
      rw [hr] at hl
      have hk : matchesKey k "success" = false := by
        by_contra hc
        simp only [Bool.not_eq_false] at hc
        rw [if_pos hc] at hl
        cases hl
      cases ha : applyNRField r k v with
      | error e => rw [ha] at h; cases h
      | ok r1 =>
        rw [ha] at h
        exact (ih r1 hr h).trans (applyNRField_frame_success r r1 k v hk ha)

theorem decodeNRFields_frame_reason (fs : List (String × Json))
    (r r' : Resp.NotificationResponse)
    (hl : lookupLastKey "reason" fs = none)
    (h : decodeNRFields fs r = Except.ok r') : r'.reason = r.reason := by
  induction fs generalizing r with
  | nil =>
    simp only [decodeNRFields] at h
    cases h
    rfl
  | cons kv rest ih =>
    obtain ⟨k, v⟩ := kv
    unfold lookupLastKey at hl
    unfold decodeNRFields at h
    cases hr : lookupLastKey "reason" rest with
    | some w => rw [hr] at hl; cases hl
    | none =>
      rw [hr] at hl
      have hk : matchesKey k "reason" = false := by
        by_contra hc
        simp only [Bool.not_eq_false] at hc
        rw [if_pos hc] at hl
        cases hl
      cases ha : applyNRField r k v with
      | error e => rw [ha] at h; cases h
      | ok r1 =>
        rw [ha] at h
        exact (ih r1 hr h).trans (applyNRField_frame_reason r r1 k v hk ha)

theorem decodeNRFields_last_success (fs : List (String × Json))
    (r r' : Resp.NotificationResponse) (b : Bool)
    (hl : lookupLastKey "success" fs = some (Json.bool b))
    (h : decodeNRFields fs r = Except.ok r') : r'.success = b := by
  induction fs generalizing r with
  | nil => cases hl
  | cons kv rest ih =>
    obtain ⟨k, v⟩ := kv
    unfold lookupLastKey at hl
    unfold decodeNRFields at h
    cases hr : lookupLastKey "success" rest with
    | some w =>
      rw [hr] at hl
      cases hl
      cases ha : applyNRField r k v with
      | error e => rw [ha] at h; cases h
      | ok r1 => rw [ha] at h; exact ih r1 hr h
    | none =>
      rw [hr] at hl
      have hk : matchesKey k "success" = true := by
        by_contra hc
        simp only [Bool.not_eq_true] at hc
        rw [if_neg (by simp [hc])] at hl
        cases hl
      rw [if_pos hk] at hl
      cases hl
      have ha : applyNRField r k (Json.bool b) = Except.ok { r with success := b } := by
        unfold applyNRField
        rw [if_pos hk]
      rw [ha] at h
      exact decodeNRFields_frame_success rest _ r' hr h

theorem decodeNRFields_last_reason (fs : List (String × Json))
    (r r' : Resp.NotificationResponse) (rfs : List (String × Json))
    (hl : lookupLastKey "reason" fs = some (Json.obj rfs))
    (h : decodeNRFields fs r = Except.ok r') :
    ∃ base x, decodeReasonFields rfs base = Except.ok x ∧ r'.reason = some x := by
  induction fs generalizing r with
  | nil => cases hl
  | cons kv rest ih =>
    obtain ⟨k, v⟩ := kv
    unfold lookupLastKey at hl
    unfold decodeNRFields at h
    cases hr : lookupLastKey "reason" rest with
    | some w =>
      rw [hr] at hl
      cases hl
      cases ha : applyNRField r k v with
      | error e => rw [ha] at h; cases h
      | ok r1 => rw [ha] at h; exact ih r1 hr h
    | none =>
      rw [hr] at hl
      have hk : matchesKey k "reason" = true := by
        by_contra hc
        simp only [Bool.not_eq_true] at hc
        rw [if_neg (by simp [hc])] at hl
        cases hl
      rw [if_pos hk] at hl
      cases hl
      have hks : matchesKey k "success" = false :=
        matchesKey_ne k "reason" "success" (by decide) rfl rfl hk
      have hki : matchesKey k "id" = false :=
        matchesKey_ne k "reason" "id" (by decide) rfl rfl hk
      have hkm : matchesKey k "message_ids" = false :=
        matchesKey_ne k "reason" "message_ids" (by decide) rfl rfl hk
      have hmatch : applyNRField r k (Json.obj rfs) =
          match decodeReasonFields rfs (r.reason.getD Resp.zeroReason) with
          | Except.error e => Except.error e
          | Except.ok x => Except.ok { r with reason := some x } := by
        unfold applyNRField
        rw [if_neg (by simp [hks]), if_neg (by simp [hki]), if_neg (by simp [hkm]), if_pos hk]
      cases hd : decodeReasonFields rfs (r.reason.getD Resp.zeroReason) with
      | error e =>
        rw [hmatch, hd] at h
        cases h
      | ok x =>
        rw [hmatch, hd] at h
        refine ⟨r.reason.getD Resp.zeroReason, x, hd, ?_⟩
        exact decodeNRFields_frame_reason rest _ r' hr h

/-! The same frame and last-write lemmas one level down, for the fields of
the failure reason. -/

theorem applyReasonField_frame_description (r r' : Resp.NotificationReason) (k : String)
    (v : Json) (hk : matchesKey k "description" = false)
    (h : applyReasonField r k v = Except.ok r') : r'.description = r.description := by
  unfold applyReasonField at h
  repeat' split at h
  all_goals simp_all
  all_goals subst h
  all_goals rfl

theorem applyReasonField_frame_error (r r' : Resp.NotificationReason) (k : String)
    (v : Json) (hk : matchesKey k "error" = false)
    (h : applyReasonField r k v = Except.ok r') : r'.error = r.error := by
  unfold applyReasonField at h
  repeat' split at h
  all_goals simp_all
  all_goals subst h
  all_goals rfl

theorem applyReasonField_frame_details (r r' : Resp.NotificationReason) (k : String)
    (v : Json) (hk : matchesKey k "details" = false)
    (h : applyReasonField r k v = Except.ok r') : r'.details = r.details := by
  unfold applyReasonField at h
  repeat' split at h
  all_goals simp_all
  all_goals subst h
  all_goals rfl

theorem decodeReasonFields_frame_description (fs : List (String × Json))
    (r r' : Resp.NotificationReason)
    (hl : lookupLastKey "description" fs = none)
    (h : decodeReasonFields fs r = Except.ok r') : r'.description = r.description := by
  induction fs generalizing r with
  | nil =>
    simp only [decodeReasonFields] at h
    cases h
    rfl
  | cons kv rest ih =>
    obtain ⟨k, v⟩ := kv
    unfold lookupLastKey at hl
    unfold decodeReasonFields at h
    cases hr : lookupLastKey "description" rest with
    | some w => rw [hr] at hl; cases hl
    | none =>
      rw [hr] at hl
      have hk : matchesKey k "description" = false := by
        by_contra hc
        simp only [Bool.not_eq_false] at hc
        rw [if_pos hc] at hl
        cases hl
      cases ha : applyReasonField r k v with
      | error e => rw [ha] at h; cases h
      | ok r1 =>
        rw [ha] at h
        exact (ih r1 hr h).trans (applyReasonField_frame_description r r1 k v hk ha)

theorem decodeReasonFields_frame_error (fs : List (String × Json))
    (r r' : Resp.NotificationReason)
    (hl : lookupLastKey "error" fs = none)
    (h : decodeReasonFields fs r = Except.ok r') : r'.error = r.error := by
  induction fs generalizing r with
  | nil =>
    simp only [decodeReasonFields] at h
    cases h
    rfl
  | cons kv rest ih =>
    obtain ⟨k, v⟩ := kv
    unfold lookupLastKey at hl
    unfold decodeReasonFields at h
    cases hr : lookupLastKey "error" rest with
    | some w => rw [hr] at hl; cases hl
    | none =>
      rw [hr] at hl
      have hk : matchesKey k "error" = false := by
        by_contra hc
        simp only [Bool.not_eq_false] at hc
        rw [if_pos hc] at hl
        cases hl
      cases ha : applyReasonField r k v with
      | error e => rw [ha] at h; cases h
      | ok r1 =>
        rw [ha] at h
        exact (ih r1 hr h).trans (applyReasonField_frame_error r r1 k v hk ha)

theorem decodeReasonFields_frame_details (fs : List (String × Json))
    (r r' : Resp.NotificationReason)
    (hl : lookupLastKey "details" fs = none)
    (h : decodeReasonFields fs r = Except.ok r') : r'.details = r.details := by
  induction fs generalizing r with
  | nil =>
    simp only [decodeReasonFields] at h
    cases h
    rfl
  | cons kv rest ih =>
    obtain ⟨k, v⟩ := kv
    unfold lookupLastKey at hl
    unfold decodeReasonFields at h
    cases hr : lookupLastKey "details" rest with
    | some w => rw [hr] at hl; cases hl
    | none =>
      rw [hr] at hl
      have hk : matchesKey k "details" = false := by
        by_contra hc
        simp only [Bool.not_eq_false] at hc
        rw [if_pos hc] at hl
        cases hl
      cases ha : applyReasonField r k v with
      | error e => rw [ha] at h; cases h
      | ok r1 =>
        rw [ha] at h
        exact (ih r1 hr h).trans (applyReasonField_frame_details r r1 k v hk ha)

theorem decodeReasonFields_last_description (fs : List (String × Json))
    (r r' : Resp.NotificationReason) (s : String)
    (hl : lookupLastKey "description" fs = some (Json.str s))
    (h : decodeReasonFields fs r = Except.ok r') : r'.description = s := by
  induction fs generalizing r with
  | nil => cases hl
  | cons kv rest ih =>
    obtain ⟨k, v⟩ := kv
    unfold lookupLastKey at hl
    unfold decodeReasonFields at h
    cases hr : lookupLastKey "description" rest with
    | some w =>
      rw [hr] at hl
      cases hl
      cases ha : applyReasonField r k v with
      | error e => rw [ha] at h; cases h
      | ok r1 => rw [ha] at h; exact ih r1 hr h
    | none =>
      rw [hr] at hl
      have hk : matchesKey k "description" = true := by
        by_contra hc
        simp only [Bool.not_eq_true] at hc
        rw [if_neg (by simp [hc])] at hl
        cases hl
      rw [if_pos hk] at hl
      cases hl
      have ha : applyReasonField r k (Json.str s) = Except.ok { r with description := s } := by
        unfold applyReasonField
        rw [if_pos hk]
      rw [ha] at h
      exact decodeReasonFields_frame_description rest _ r' hr h

theorem decodeReasonFields_last_error (fs : List (String × Json))
    (r r' : Resp.NotificationReason) (s : String)
    (hl : lookupLastKey "error" fs = some (Json.str s))
    (h : decodeReasonFields fs r = Except.ok r') : r'.error = s := by
  induction fs generalizing r with
  | nil => cases hl
  | cons kv rest ih =>
    obtain ⟨k, v⟩ := kv
    unfold lookupLastKey at hl
    unfold decodeReasonFields at h
    cases hr : lookupLastKey "error" rest with
    | some w =>
      rw [hr] at hl
      cases hl
      cases ha : applyReasonField r k v with
      | error e => rw [ha] at h; cases h
      | ok r1 => rw [ha] at h; exact ih r1 hr h
    | none =>
      rw [hr] at hl
      have hk : matchesKey k "error" = true := by
        by_contra hc
        simp only [Bool.not_eq_true] at hc
        rw [if_neg (by simp [hc])] at hl
        cases hl
      rw [if_pos hk] at hl
      cases hl
      have hkd : matchesKey k "description" = false :=
        matchesKey_ne k "error" "description" (by decide) rfl rfl hk
      have ha : applyReasonField r k (Json.str s) = Except.ok { r with error := s } := by
        unfold applyReasonField
        rw [if_neg (by simp [hkd]), if_pos hk]
      rw [ha] at h
      exact decodeReasonFields_frame_error rest _ r' hr h

theorem decodeReasonFields_last_details (fs : List (String × Json))
    (r r' : Resp.NotificationReason) (ds : List Json)
    (hl : lookupLastKey "details" fs = some (Json.arr ds))
    (h : decodeReasonFields fs r = Except.ok r') :
    ∃ l, decodeDetails ds = Except.ok l ∧ r'.details = l := by
  induction fs generalizing r with
  | nil => cases hl
  | cons kv rest ih =>
    obtain ⟨k, v⟩ := kv
    unfold lookupLastKey at hl
    unfold decodeReasonFields at h
    cases hr : lookupLastKey "details" rest with
    | some w =>
      rw [hr] at hl
      cases hl
      cases ha : applyReasonField r k v with
      | error e => rw [ha] at h; cases h
      | ok r1 => rw [ha] at h; exact ih r1 hr h
    | none =>
      rw [hr] at hl
      have hk : matchesKey k "details" = true := by
        by_contra hc
        simp only [Bool.not_eq_true] at hc
        rw [if_neg (by simp [hc])] at hl
        cases hl
      rw [if_pos hk] at hl
      cases hl
      have hkd : matchesKey k "description" = false :=
        matchesKey_ne k "details" "description" (by decide) rfl rfl hk
      have hke : matchesKey k "error" = false :=
        matchesKey_ne k "details" "error" (by decide) rfl rfl hk
      have hmatch : applyReasonField r k (Json.arr ds) =
          match decodeDetails ds with
          | Except.error e => Except.error e
          | Except.ok l => Except.ok { r with details := l } := by
        unfold applyReasonField
        rw [if_neg (by simp [hkd]), if_neg (by simp [hke]), if_pos hk]
      cases hd : decodeDetails ds with
      | error e =>
        rw [hmatch, hd] at h
        cases h
      | ok l =>
        rw [hmatch, hd] at h
        exact ⟨l, rfl, decodeReasonFields_frame_details rest _ r' hr h⟩

/-- Decoding a JSON array into `[]Detail` preserves its length. -/
theorem decodeDetails_length (ds : List Json) (l : List Resp.NotificationDetail)
    (h : decodeDetails ds = Except.ok l) : l.length = ds.length := by
  induction ds generalizing l with
  | nil =>
    simp only [decodeDetails] at h
    cases h
    rfl
  | cons j rest ih =>
    unfold decodeDetails at h
    cases h1 : decodeDetailItem j with
    | error e => rw [h1] at h; cases h
    | ok d =>
      rw [h1] at h
      cases h2 : decodeDetails rest with
      | error e => rw [h2] at h; cases h
      | ok l2 =>
        rw [h2] at h
        cases h
        simp [ih l2 h2]

/-- C1: for every valid JSON failure body with `success: false` and a
populated `reason` object (a description, an error code, and a non-empty
`details` array present in the input), decoding via `ParseResponse` into a
`NotificationResponse` yields `success = false` and a fully populated
reason: the input's description and error code, and a non-empty details
sequence.  The body is given as its parsed object `fs` (`rfs` the fields
of its last `reason` value), the populated fields as the last occurrence
of each key, matching the decoder's overwrite order. -/
theorem parse_failure_populates_reason
    (fs rfs : List (String × Json)) (res : Resp.NotificationResponse)
    (d e : String) (ds : List Json)
    (hdec : unmarshalNR (Json.obj fs) = Except.ok res)
    (hs : lookupLastKey "success" fs = some (Json.bool false))
    (hr : lookupLastKey "reason" fs = some (Json.obj rfs))
    (hd : lookupLastKey "description" rfs = some (Json.str d))
    (he : lookupLastKey "error" rfs = some (Json.str e))
    (hds : lookupLastKey "details" rfs = some (Json.arr ds))
    (hne : ds ≠ []) :
    res.success = false ∧ res.reason.isSome = true ∧
      reasonDescriptionOf res = some d ∧ reasonErrorOf res = some e ∧
      reasonHasDetails res = true := by
  unfold unmarshalNR at hdec
  have hsucc := decodeNRFields_last_success fs Resp.zeroNR res false hs hdec
  obtain ⟨base, x, hxd, hxr⟩ := decodeNRFields_last_reason fs Resp.zeroNR res rfs hr hdec
  have hdesc := decodeReasonFields_last_description rfs base x d hd hxd
  have herr := decodeReasonFields_last_error rfs base x e he hxd
  obtain ⟨l, hld, hxl⟩ := decodeReasonFields_last_details rfs base x ds hds hxd
  have hlen := decodeDetails_length ds l hld
  have hlne : l ≠ [] := by
    intro h0
    apply hne
    rw [h0] at hlen
    exact (List.length_eq_zero.mp hlen.symm)
  refine ⟨hsucc, ?_, ?_, ?_, ?_⟩
  · rw [hxr]
    rfl
  · rw [reasonDescriptionOf, hxr, Option.map_some', hdesc]
  · rw [reasonErrorOf, hxr, Option.map_some', herr]
  · rw [reasonHasDetails, hxr]
    show (!x.details.isEmpty) = true
    cases hc : l with
    | nil => exact absurd hc hlne
    | cons a t =>
      rw [hxl, hc]
      rfl

/-- Witness for C1 at the test suite's failure body. -/
theorem parse_failure_populates_reason_witness :
    exFailureDecoded.success = false ∧ exFailureDecoded.reason.isSome = true ∧
      reasonDescriptionOf exFailureDecoded = some "validation encountered errors" ∧
      reasonErrorOf exFailureDecoded = some "validation_error" ∧
      reasonHasDetails exFailureDecoded = true :=
  parse_failure_populates_reason exFailureFields exReasonFields exFailureDecoded
    "validation encountered errors" "validation_error" exDetailsArr
    rfl rfl rfl rfl rfl rfl (by unfold exDetailsArr; exact List.cons_ne_nil _ _)

/-! Lenient decoding (C8): a well-typed object always decodes, whatever
fields are present, absent, or unknown. -/

theorem applyDetailField_ok (d : Resp.NotificationDetail) (k : String) (v : Json)
    (h : wellTypedDetailField k v = true) : (applyDetailField d k v).isOk = true := by
  unfold wellTypedDetailField at h
  unfold applyDetailField
  repeat' split
  all_goals simp_all [Except.isOk, Except.toBool]

theorem decodeDetailFields_ok (fs : List (String × Json)) (d : Resp.NotificationDetail)
    (h : fs.all (fun kv => wellTypedDetailField kv.1 kv.2) = true) :
    (decodeDetailFields fs d).isOk = true := by
  induction fs generalizing d with
  | nil => rfl
  | cons kv rest ih =>
    obtain ⟨k, v⟩ := kv
    simp only [List.all_cons, Bool.and_eq_true] at h
    unfold decodeDetailFields
    cases ha : applyDetailField d k v with
    | error e =>
      have hok := applyDetailField_ok d k v h.1
      rw [ha] at hok
      simp [Except.isOk, Except.toBool] at hok
    | ok d' => exact ih d' h.2

theorem decodeDetailItem_ok (j : Json) (h : wellTypedDetail j = true) :
    (decodeDetailItem j).isOk = true := by
  cases j with
  | null => rfl
  | obj fs => exact decodeDetailFields_ok fs Resp.zeroDetail (by simpa [wellTypedDetail] using h)
  | bool b => simp [wellTypedDetail] at h
  | num s => simp [wellTypedDetail] at h
  | str s => simp [wellTypedDetail] at h
  | arr xs => simp [wellTypedDetail] at h

theorem decodeDetails_ok (xs : List Json) (h : xs.all wellTypedDetail = true) :
    (decodeDetails xs).isOk = true := by
  induction xs with
  | nil => rfl
  | cons j rest ih =>
    simp only [List.all_cons, Bool.and_eq_true] at h
    unfold decodeDetails
    cases h1 : decodeDetailItem j with
    | error e =>
      have hok := decodeDetailItem_ok j h.1
      rw [h1] at hok
      simp [Except.isOk, Except.toBool] at hok
    | ok d =>
      cases h2 : decodeDetails rest with
      | error e =>
        have hok := ih h.2
        rw [h2] at hok
        simp [Except.isOk, Except.toBool] at hok
      | ok l => rfl

theorem applyReasonField_ok (r : Resp.NotificationReason) (k : String) (v : Json)
    (h : wellTypedReasonField k v = true) : (applyReasonField r k v).isOk = true := by
  unfold wellTypedReasonField at h
  unfold applyReasonField
  repeat' split
  all_goals try rfl
  all_goals simp_all [Except.isOk, Except.toBool]
  all_goals rename_i heq
  all_goals (have hok := decodeDetails_ok _ (by simpa using h); rw [heq] at hok)
  all_goals simp [Except.isOk, Except.toBool] at hok

theorem decodeReasonFields_ok (fs : List (String × Json)) (r : Resp.NotificationReason)
    (h : fs.all (fun kv => wellTypedReasonField kv.1 kv.2) = true) :
    (decodeReasonFields fs r).isOk = true := by
  induction fs generalizing r with
  | nil => rfl
  | cons kv rest ih =>
    obtain ⟨k, v⟩ := kv
    simp only [List.all_cons, Bool.and_eq_true] at h
    unfold decodeReasonFields
    cases ha : applyReasonField r k v with
    | error e =>
      have hok := applyReasonField_ok r k v h.1
      rw [ha] at hok
      simp [Except.isOk, Except.toBool] at hok
    | ok r' => exact ih r' h.2

theorem decodeStringItems_ok (xs : List Json) (h : xs.all wellTypedStringItem = true) :
    (decodeStringItems xs).isOk = true := by
  induction xs with
  | nil => rfl
  | cons j rest ih =>
    simp only [List.all_cons, Bool.and_eq_true] at h
    unfold decodeStringItems
    have h1 : ∃ s, decodeStringItem j = Except.ok s := by
      cases j with
      | null => exact ⟨"", rfl⟩
      | str s => exact ⟨s, rfl⟩
      | bool b => simp [wellTypedStringItem] at h
      | num s => simp [wellTypedStringItem] at h
      | arr ys => simp [wellTypedStringItem] at h
      | obj fs => simp [wellTypedStringItem] at h
    obtain ⟨s, hs⟩ := h1
    rw [hs]
    cases h2 : decodeStringItems rest with
    | error e =>
      have hok := ih h.2
      rw [h2] at hok
      simp [Except.isOk, Except.toBool] at hok
    | ok l => rfl

theorem applyNRField_ok (r : Resp.NotificationResponse) (k : String) (v : Json)
    (h : wellTypedNRField k v = true) : (applyNRField r k v).isOk = true := by
  unfold wellTypedNRField at h
  unfold applyNRField
  repeat' split
  all_goals try rfl
  all_goals simp_all [Except.isOk, Except.toBool]
  all_goals rename_i heq
  · have hok := decodeStringItems_ok _ (by simpa using h)
    rw [heq] at hok
    simp [Except.isOk, Except.toBool] at hok
  · have hok := decodeReasonFields_ok _ (r.reason.getD Resp.zeroReason) (by simpa using h)
    rw [heq] at hok
    simp [Except.isOk, Except.toBool] at hok

theorem decodeNRFields_ok (fs : List (String × Json)) (r : Resp.NotificationResponse)
    (h : fs.all (fun kv => wellTypedNRField kv.1 kv.2) = true) :
    (decodeNRFields fs r).isOk = true := by
  induction fs generalizing r with
  | nil => rfl
  | cons kv rest ih =>
    obtain ⟨k, v⟩ := kv
    simp only [List.all_cons, Bool.and_eq_true] at h
    unfold decodeNRFields
    cases ha : applyNRField r k v with
    | error e =>
      have hok := applyNRField_ok r k v h.1
      rw [ha] at hok
      simp [Except.isOk, Except.toBool] at hok
    | ok r' => exact ih r' h.2

/-- Counterexample to C8 as stated: `[]` is a valid JSON body (the
`SendRequest` validity check accepts it), yet decoding it into a
`NotificationResponse` via `ParseResponse` fails, because a JSON array
cannot be unmarshalled into a Go struct. -/
theorem array_body_fails_decode :
    (parseJson "[]").isSome = true ∧
      (Response.parseNR ⟨"[]", 200, []⟩).isOk = false :=
  ⟨rfl, rfl⟩

/-- C8 (amended): decoding a `NotificationResponse` is tolerant of extra
or missing optional fields: every JSON object body whose recognized fields
(`success`, `id`, `message_ids`, `reason`, matched as the decoder matches
keys) carry values of the declared types when present — all of them
optional, unknown keys ignored, the success-only fields and the reason
field allowed to be both present or both absent — decodes without error;
in particular a failure body with `id: ""` and `message_ids: null`. -/
theorem decode_tolerant_of_optional_fields (fs : List (String × Json))
    (h : fs.all (fun kv => wellTypedNRField kv.1 kv.2) = true) :
    (unmarshalNR (Json.obj fs)).isOk = true :=
  decodeNRFields_ok fs Resp.zeroNR h

/-- Witness for the amended C8 at the test failure body (which carries
`id: ""`, `message_ids: null`, a populated `reason` and an unknown extra
key). -/
theorem decode_tolerant_of_optional_fields_witness :
    (unmarshalNR (Json.obj exFailureFields)).isOk = true :=
  decode_tolerant_of_optional_fields exFailureFields rfl

/-! Options application (C7, C10). -/

/-- Folding a list of `WithPriority` mutators over a recipient record:
the last priority wins and nothing else changes. -/
theorem foldl_withPriority (init : User) (ps : List String) :
    (ps.map WithPriority).foldl (fun u o => o u) init =
      ⟨ps.getLast?.getD init.priority, init.phone, init.params⟩ := by
  induction ps generalizing init with
  | nil => rfl
  | cons p rest ih =>
    simp only [List.map_cons, List.foldl_cons]
    rw [ih]
    cases rest with
    | nil => rfl
    | cons q qs =>
      rw [List.getLast?_cons_cons]
      cases hq : (q :: qs).getLast? with
      | some z => simp [hq, WithPriority]
      | none => simp at hq

/-- C7: the recipient record `SendNotification` builds starts as priority
`"1"` with the given phone and the params passed through unmodified, and
the notification options are applied in call order, so the final priority
is the argument of the last `WithPriority` option, or `"1"` when none is
supplied. -/
theorem notification_options_apply_in_order (phone : String) (params : Json)
    (ps : List String) :
    builtUser phone params [] = ⟨"1", phone, params⟩ ∧
    builtUser phone params (ps.map WithPriority) =
      ⟨ps.getLast?.getD "1", phone, params⟩ := by
  refine ⟨rfl, ?_⟩
  unfold builtUser
  exact foldl_withPriority ⟨"1", phone, params⟩ ps

/-- C10: when the last applied `WithPriority` option carries the empty
string, the serialized user object omits the `priority` key entirely
(`omitempty`), leaving only `phone` and `params`. -/
theorem empty_priority_omitted_from_body (phone : String) (params : Json)
    (ps : List String) (h : ps.getLast? = some "") :
    marshalUser (builtUser phone params (ps.map WithPriority)) =
      Json.obj [("phone", Json.str phone), ("params", params)] := by
  unfold builtUser
  rw [foldl_withPriority ⟨"1", phone, params⟩ ps]
  simp [marshalUser, h]

/-- Witness for C10: priority overridden to `"2"`, then to `""`. -/
theorem empty_priority_omitted_from_body_witness :
    marshalUser (builtUser "+15555550100" Json.null
        (List.map WithPriority ["2", ""])) =
      Json.obj [("phone", Json.str "+15555550100"), ("params", Json.null)] :=
  empty_priority_omitted_from_body "+15555550100" Json.null ["2", ""] rfl

/-! Missing identifiers (C2). -/

/-- C2: a client with an empty account identifier or an empty bot
identifier makes `SendNotification` return a configuration error
immediately: no rate-limit ticket is consumed, the transport is invoked
zero times, and nothing is logged. -/
theorem sendNotification_missing_ids_config_error (c : Client) (ctx : Ctx)
    (t : Transport) (notificationType phone : String) (params : Json)
    (opts : List NotificationOption)
    (h : c.accountID = "" ∨ c.botID = "") :
    sendNotification c ctx t notificationType phone params opts =
      some ⟨c, 0, 0, [], none, some YaloError.configError⟩ := by
  unfold sendNotification
  rw [if_pos h]

/-- Witness for C2 at a client whose account identifier is empty. -/
theorem sendNotification_missing_ids_config_error_witness :
    sendNotification exClientNoAccount ⟨false⟩ exHtmlTransport "tpl"
        "+15555550100" Json.null [] =
      some ⟨exClientNoAccount, 0, 0, [], none, some YaloError.configError⟩ :=
  sendNotification_missing_ids_config_error exClientNoAccount ⟨false⟩
    exHtmlTransport "tpl" "+15555550100" Json.null [] (Or.inl rfl)

/-! Frame property (C9): no call writes the client configuration. -/

theorem sendRequest_client_frame (c : Client) (ctx : Ctx) (t : Transport)
    (endpoint jsonRequest : String) (cr : CallResult)
    (h : sendRequest c ctx t endpoint jsonRequest = some cr) : cr.client = c := by
  unfold sendRequest at h
  repeat' split at h
  all_goals cases h
  all_goals rfl

theorem sendNotification_client_frame (c : Client) (ctx : Ctx) (t : Transport)
    (notificationType phone : String) (params : Json)
    (opts : List NotificationOption) (nr : NotifyResult)
    (h : sendNotification c ctx t notificationType phone params opts = some nr) :
    nr.client = c := by
  unfold sendNotification at h
  split at h
  · cases h
    rfl
  · split at h
    · cases h
    · rename_i cr heq
      have hc : cr.client = c :=
        sendRequest_client_frame c ctx t _ _ cr heq
      repeat' split at h
      all_goals cases h
      all_goals exact hc

/-- C9: after any `SendRequest` or `SendNotification` call on a client,
every configuration field of the client (base URL, account and bot
identifiers, token, debug flag, retry transport) is unchanged: the
post-call client state carried by the call's outcome equals the client it
was called on, the only shared state touched being the rate-limit gate it
reads. -/
theorem calls_leave_client_unchanged (c : Client) (ctx : Ctx) (t : Transport)
    (endpoint jsonRequest notificationType phone : String) (params : Json)
    (opts : List NotificationOption) :
    Option.map CallResult.client (sendRequest c ctx t endpoint jsonRequest) =
      Option.map (fun _ => c) (sendRequest c ctx t endpoint jsonRequest) ∧
    Option.map NotifyResult.client
        (sendNotification c ctx t notificationType phone params opts) =
      Option.map (fun _ => c)
        (sendNotification c ctx t notificationType phone params opts) := by
  constructor
  · cases hs : sendRequest c ctx t endpoint jsonRequest with
    | none => rfl
    | some cr =>
      simp [sendRequest_client_frame c ctx t endpoint jsonRequest cr hs]
  · cases hn : sendNotification c ctx t notificationType phone params opts with
    | none => rfl
    | some nr =>
      simp [sendNotification_client_frame c ctx t notificationType phone params
        opts nr hn]

/-! Non-JSON responses (C3) and cancellation (C5). -/

/-- A call that does not hit the debug token panic always completes its
auth/debug step. -/
theorem authLogsOf_some (c : Client) (hp : tokenPanics c = false) :
    ∃ al, authLogsOf c = some al := by
  unfold tokenPanics at hp
  unfold authLogsOf
  split
  · exact ⟨[], rfl⟩
  · rename_i hne
    split
    · rename_i hdbg
      cases hs : slice10 c.token with
      | some t10 => exact ⟨[authTokenLog t10], rfl⟩
      | none =>
        exfalso
        rw [hs] at hp
        simp [hne, hdbg] at hp
    · exact ⟨[], rfl⟩

/-- C3: when the HTTP exchange succeeds but the body is not valid JSON,
`SendRequest` returns both a non-nil `Response` carrying the raw body,
status code and headers, and a non-nil error reporting the non-JSON
response, so the caller can inspect the raw body on this error path. -/
theorem sendRequest_non_json_returns_body_and_error (c : Client) (ctx : Ctx)
    (t : Transport) (endpoint jsonRequest : String) (resp : HttpResp) (n : Nat)
    (hp : tokenPanics c = false)
    (hdo : clientDo c ctx t = (n, Except.ok resp))
    (hnj : parseJson resp.body = none) :
    respOf (sendRequest c ctx t endpoint jsonRequest) =
      some ⟨resp.body, resp.statusCode, resp.headers⟩ ∧
    errOf (sendRequest c ctx t endpoint jsonRequest) =
      some (YaloError.nonJSONResponse resp.statusCode resp.body) := by
  obtain ⟨al, hal⟩ := authLogsOf_some c hp
  unfold sendRequest
  rw [hal, hdo]
  refine ⟨rfl, ?_⟩
  show (if (parseJson resp.body).isNone = true then
      some (YaloError.nonJSONResponse resp.statusCode resp.body)
    else none) = some (YaloError.nonJSONResponse resp.statusCode resp.body)
  rw [hnj]
  rfl

/-- Witness for C3 at an HTML 404 error page. -/
theorem sendRequest_non_json_returns_body_and_error_witness :
    respOf (sendRequest exClient ⟨false⟩ exHtmlTransport "/e" "null") =
      some ⟨"<html>bad gateway</html>", 404, [("Content-Type", "text/html")]⟩ ∧
    errOf (sendRequest exClient ⟨false⟩ exHtmlTransport "/e" "null") =
      some (YaloError.nonJSONResponse 404 "<html>bad gateway</html>") :=
  sendRequest_non_json_returns_body_and_error exClient ⟨false⟩ exHtmlTransport
    "/e" "null" ⟨404, "<html>bad gateway</html>", [("Content-Type", "text/html")]⟩
    1 rfl rfl rfl

/-- Counterexample to C5 as stated: with an already-cancelled context the
call still performs the rate-limiter receive — `SendRequest` line 100 is a
bare `<-c.rateLimiter` with no select on the context, so the model records
one ticket, not zero; cancellation does not abort the wait for a
rate-limit ticket. -/
theorem cancelled_call_still_waits_for_ticket :
    ticketsOf (sendRequest exClient ⟨true⟩ exHtmlTransport "/e" "null") = 1 ∧
    ¬ ticketsOf (sendRequest exClient ⟨true⟩ exHtmlTransport "/e" "null") = 0 :=
  ⟨rfl, by decide⟩

/-- C5 (amended): a cancelled context aborts the in-flight network
operation — no underlying transport attempt runs and the cancellation
error is propagated to the caller — but it does not abort the wait for a
rate-limit ticket: the call first consumes one ticket unconditionally. -/
theorem cancellation_aborts_network_not_ticket_wait (c : Client) (ctx : Ctx)
    (t : Transport) (endpoint jsonRequest : String)
    (hp : tokenPanics c = false) (hc : ctx.cancelled = true) :
    ticketsOf (sendRequest c ctx t endpoint jsonRequest) = 1 ∧
    attemptsOf (sendRequest c ctx t endpoint jsonRequest) = 0 ∧
    respOf (sendRequest c ctx t endpoint jsonRequest) = none ∧
    errOf (sendRequest c ctx t endpoint jsonRequest) =
      some (YaloError.sendError TransportError.canceled) := by
  obtain ⟨al, hal⟩ := authLogsOf_some c hp
  have hdo : clientDo c ctx t = (0, Except.error TransportError.canceled) := by
    unfold clientDo
    rw [if_pos hc]
  unfold sendRequest
  rw [hal, hdo]
  exact ⟨rfl, rfl, rfl, rfl⟩

/-- Witness for the amended C5. -/
theorem cancellation_aborts_network_not_ticket_wait_witness :
    ticketsOf (sendRequest exClient ⟨true⟩ exFlakyTransport "/e" "null") = 1 ∧
    attemptsOf (sendRequest exClient ⟨true⟩ exFlakyTransport "/e" "null") = 0 ∧
    respOf (sendRequest exClient ⟨true⟩ exFlakyTransport "/e" "null") = none ∧
    errOf (sendRequest exClient ⟨true⟩ exFlakyTransport "/e" "null") =
      some (YaloError.sendError TransportError.canceled) :=
  cancellation_aborts_network_not_ticket_wait exClient ⟨true⟩ exFlakyTransport
    "/e" "null" rfl rfl

/-- C6: the debug token log evaluates the Go slice `c.Token[:10]`
(`SendRequest` line 124); for a debug-enabled client whose non-empty token
`"abc"` has fewer than 10 characters, the slice is out of range and the
call panics (modelled by `none`) instead of logging a truncated token, so
the logging step does not complete without failure for every non-empty
token. -/
theorem debug_short_token_panics :
    sendRequest exClientShortToken ⟨false⟩ exHtmlTransport "/e" "null" = none ∧
    tokenPanics exClientShortToken = true :=
  ⟨rfl, rfl⟩

/-! Retry policy (C4), over the spec-modelled retry loop with the default
budget `NewClient` configures. -/

/-- C4: with the default configuration, a request attempt failing at
transport level or with a retryable status (at least 500, or 429) is
retried with at most 3 attempts in total; a transport failing transiently
on the first `k < 3` attempts and succeeding after yields the success
result after exactly `k + 1` attempts; and exhausting the retries
surfaces the last attempt's outcome. -/
theorem retry_transient_then_success (t : Transport) (k : Nat) (resp : HttpResp) :
    (retryLoop t 0 defaultMaxAttempts).1 ≤ defaultMaxAttempts ∧
    (k < defaultMaxAttempts →
      (∀ i, i < k → isRetryableResult (t i) = true) →
      t k = Except.ok resp →
      isRetryableResult (Except.ok resp) = false →
      retryLoop t 0 defaultMaxAttempts = (k + 1, Except.ok resp)) ∧
    ((∀ i, i < defaultMaxAttempts → isRetryableResult (t i) = true) →
      retryLoop t 0 defaultMaxAttempts = (defaultMaxAttempts, t 2)) := by
  unfold defaultMaxAttempts
  have h3 : retryLoop t 0 3 =
      if isRetryableResult (t 0) = true then retryLoop t 1 2 else (1, t 0) := rfl
  have h2 : retryLoop t 1 2 =
      if isRetryableResult (t 1) = true then retryLoop t 2 1 else (2, t 1) := rfl
  have h1 : retryLoop t 2 1 = (3, t 2) := rfl
  refine ⟨?_, ?_, ?_⟩
  · rw [h3]
    by_cases hb0 : isRetryableResult (t 0) = true
    · rw [if_pos hb0, h2]
      by_cases hb1 : isRetryableResult (t 1) = true
      · rw [if_pos hb1, h1]
      · rw [if_neg hb1]
        exact Nat.le_succ 2
    · rw [if_neg hb0]
      exact Nat.le_add_left 1 2
  · intro hk hfail hsucc hok
    interval_cases k
    · rw [h3, hsucc, if_neg (by rw [hok]; exact Bool.false_ne_true)]
    · rw [h3, if_pos (hfail 0 (by omega)), h2, hsucc,
        if_neg (by rw [hok]; exact Bool.false_ne_true)]
    · rw [h3, if_pos (hfail 0 (by omega)), h2, if_pos (hfail 1 (by omega)), h1,
        hsucc]
  · intro hall
    rw [h3, if_pos (hall 0 (by omega)), h2, if_pos (hall 1 (by omega)), h1]

/-- Witness for C4: one transient transport failure, success on the second
attempt, so the call succeeds after exactly 2 underlying attempts. -/
theorem retry_transient_then_success_witness :
    retryLoop exFlakyTransport 0 defaultMaxAttempts = (2, Except.ok exOkResp) :=
  (retry_transient_then_success exFlakyTransport 1 exOkResp).2.1
    (by decide)
    (fun i hi => by
      have h0 : i = 0 := Nat.lt_one_iff.mp hi
      subst h0
      rfl)
    rfl rfl

end Yalo
